import Mathlib

/-!
# RCL evaluation core: a shallow embedding of `src/eval.rs`

This file embeds the evaluator of the RCL configuration language
(`eval.rs`) in Lean and proves the specification claims about it.
Runtime support types that `eval.rs` imports from sibling modules
(`runtime::{Env, Value, Builtin}`, `source::Span`, the error type and
the AST) are not part of the provided sources; they are modelled from
the specification, as marked on each definition.
-/

set_option maxHeartbeats 1000000

namespace RCL

/-- Modelled from the spec: a `Span` is an opaque source-location handle
used only to annotate diagnostics (`source::Span` is not in the provided
sources). We model it as an abstract identifier. -/
structure Span where
  id : Nat
deriving DecidableEq, Repr

mutual

/-- Modelled from the spec: the runtime `Value` type (`runtime::Value` is
not in the provided sources). Variants per the spec's data-model table:
Bool, Int (signed 64-bit), String, List, Set (sorted unique values),
Map (sorted key-value entries), Builtin. Sets and maps are represented
as ordered lists maintained by the insertion operations below, mirroring
the `BTreeSet`/`BTreeMap` backing. -/
inductive Value : Type where
  | bool : Bool → Value
  | int : Int → Value
  | string : String → Value
  | list : List Value → Value
  | set : List Value → Value
  | map : List (Value × Value) → Value
  | builtin : Builtin → Value

/-- Modelled from the spec: a `Builtin` is a native callable closing over
the base value it was resolved from (`runtime::Builtin` stores a name and
a closure; we defunctionalise into the four builtins `eval.rs`
constructs, each carrying its captured data). -/
inductive Builtin : Type where
  | string_len : Int → Builtin
  | map_contains : Value → Builtin
  | map_get : Value → Builtin
  | list_contains : Value → Builtin

end

/-- Comparison on `Bool`: `false < true`, as in Rust's derived `Ord`. -/
def cmpBool : Bool → Bool → Ordering
  | false, false => .eq
  | false, true => .lt
  | true, false => .gt
  | true, true => .eq

/-- Comparison on `Int`, standard order. -/
def cmpInt (a b : Int) : Ordering :=
  if a < b then .lt else if a = b then .eq else .gt

/-- Comparison on `Nat`, standard order. -/
def cmpNat (a b : Nat) : Ordering :=
  if a < b then .lt else if a = b then .eq else .gt

/-- Comparison on `Char` by code point (for UTF-8 encoded strings this
coincides with Rust's byte-wise string order). -/
def cmpChar (a b : Char) : Ordering := cmpNat a.toNat b.toNat

/-- Lexicographic comparison of character lists. -/
def cmpCharList : List Char → List Char → Ordering
  | [], [] => .eq
  | [], _ :: _ => .lt
  | _ :: _, [] => .gt
  | c :: cs, d :: ds => (cmpChar c d).then (cmpCharList cs ds)

/-- Comparison on `String`, lexicographic order. -/
def cmpString (a b : String) : Ordering := cmpCharList a.data b.data

mutual

/-- Modelled from the spec: the total order on values ("variant tag then
within-variant order") that backs the ordered sets and maps. The tag
order follows the spec's variant table. -/
def Value.cmp : Value → Value → Ordering
  | .bool a, .bool b => cmpBool a b
  | .bool _, _ => .lt
  | _, .bool _ => .gt
  | .int a, .int b => cmpInt a b
  | .int _, _ => .lt
  | _, .int _ => .gt
  | .string a, .string b => cmpString a b
  | .string _, _ => .lt
  | _, .string _ => .gt
  | .list a, .list b => Value.cmpList a b
  | .list _, _ => .lt
  | _, .list _ => .gt
  | .set a, .set b => Value.cmpList a b
  | .set _, _ => .lt
  | _, .set _ => .gt
  | .map a, .map b => Value.cmpPairs a b
  | .map _, _ => .lt
  | _, .map _ => .gt
  | .builtin a, .builtin b => Value.cmpBuiltin a b
termination_by structural v => v

/-- Lexicographic comparison of value lists. -/
def Value.cmpList : List Value → List Value → Ordering
  | [], [] => .eq
  | [], _ :: _ => .lt
  | _ :: _, [] => .gt
  | x :: xs, y :: ys => (Value.cmp x y).then (Value.cmpList xs ys)
termination_by structural l => l

/-- Lexicographic comparison of key-value entry lists. -/
def Value.cmpPairs : List (Value × Value) → List (Value × Value) → Ordering
  | [], [] => .eq
  | [], _ :: _ => .lt
  | _ :: _, [] => .gt
  | (k, v) :: xs, (k', v') :: ys =>
    (Value.cmp k k').then ((Value.cmp v v').then (Value.cmpPairs xs ys))
termination_by structural l => l

/-- Comparison of builtins: by builtin tag, then by captured data. -/
def Value.cmpBuiltin : Builtin → Builtin → Ordering
  | .string_len a, .string_len b => cmpInt a b
  | .string_len _, _ => .lt
  | _, .string_len _ => .gt
  | .map_contains a, .map_contains b => Value.cmp a b
  | .map_contains _, _ => .lt
  | _, .map_contains _ => .gt
  | .map_get a, .map_get b => Value.cmp a b
  | .map_get _, _ => .lt
  | _, .map_get _ => .gt
  | .list_contains a, .list_contains b => Value.cmp a b
termination_by structural b => b

end

/-- Boolean value equality, backed by the total order (structural
equality; Rust's derived `PartialEq` coincides with `Ord`-equality). -/
def valueEq (a b : Value) : Bool := Value.cmp a b == Ordering.eq

/-- Insert into a sorted value list; on an equal comparison the existing
element is kept, as `BTreeSet::insert` keeps the existing element. -/
def setInsert (x : Value) : List Value → List Value
  | [] => [x]
  | y :: rest =>
    match Value.cmp x y with
    | .lt => x :: y :: rest
    | .eq => y :: rest
    | .gt => y :: setInsert x rest

/-- Insert every element of `ys` into the set `xs`. Models both
`xs.union(ys).cloned().collect()` and `xs.clone(); result.extend(ys)`
from `eval_binop`, which agree on sorted sets. -/
def setInsertAll (xs ys : List Value) : List Value :=
  ys.foldl (fun acc y => setInsert y acc) xs

/-- Collect a list of values into a set, inserting in order (models
`values.into_iter().collect::<BTreeSet<_>>()`). -/
def setFromList (vs : List Value) : List Value :=
  vs.foldl (fun acc v => setInsert v acc) []

/-- Insert into a sorted entry list; on an equal key the value is
updated and the stored key kept, as `BTreeMap::insert` does. -/
def mapInsert (k v : Value) : List (Value × Value) → List (Value × Value)
  | [] => [(k, v)]
  | (k', v') :: rest =>
    match Value.cmp k k' with
    | .lt => (k, v) :: (k', v') :: rest
    | .eq => (k', v) :: rest
    | .gt => (k', v') :: mapInsert k v rest

/-- Look up a key in an entry list (models `BTreeMap::get`). -/
def lookupKey (k : Value) : List (Value × Value) → Option Value
  | [] => none
  | (k', v) :: rest =>
    match Value.cmp k k' with
    | .eq => some v
    | _ => lookupKey k rest

/-- Map union as in `eval_binop`: clone the left map, then insert every
entry of the right map in order; right entries overwrite on collision. -/
def mapUnion (xs ys : List (Value × Value)) : List (Value × Value) :=
  ys.foldl (fun acc kv => mapInsert kv.1 kv.2 acc) xs

/-- The record built by brace-literal finalisation: insert the parallel
keys/values into a fresh map in evaluation order. -/
def mapFromEntries (ks vs : List Value) : List (Value × Value) :=
  (ks.zip vs).foldl (fun acc kv => mapInsert kv.1 kv.2 acc) []

/-- Modelled from the spec: the `Environment` is a stack of
(identifier, value) bindings (`runtime::Env` is not in the provided
sources): `push` adds a binding, `pop` removes the most recently pushed
binding, `lookup` returns the innermost binding of a name. -/
abbrev Env := List (String × Value)

/-- Push a binding onto the environment stack. -/
def Env.push (env : Env) (name : String) (v : Value) : Env := (name, v) :: env

/-- Pop the most recently pushed binding. -/
def Env.pop (env : Env) : Env := env.tail

/-- Innermost-first lookup of a name. -/
def Env.lookup : Env → String → Option Value
  | [], _ => none
  | (n, v) :: rest, x => if n = x then some v else Env.lookup rest x

/-- Modelled from the spec: runtime errors, defunctionalising the error
builder used by `eval.rs` (`error.rs` is not in the provided sources):
a plain message (`"...".into()`), a message at a span (`span.error(..)`),
an error with a secondary note location (`.with_note`), an error with
free-form help (`.with_help`), and `fatal` for the panicking macros
(`unimplemented!`, `unreachable!`), which are not catchable errors. -/
inductive Error : Type where
  | msg : String → Error
  | atSpan : Span → String → Error
  | withNote : Span → String → Span → String → Error
  | withHelp : Span → String → String → Error
  | fatal : String → Error
deriving DecidableEq, Repr

/-- Unary operators of the AST (`ast.rs` is not in the provided sources;
`eval.rs` handles only negation). -/
inductive UnOp : Type where
  | neg
deriving DecidableEq, Repr

/-- Binary operators of the AST, as dispatched by `eval_binop`. -/
inductive BinOp : Type where
  | union | and | or | add | mul | lt | gt | ltEq | gtEq
deriving DecidableEq, Repr

mutual

/-- Modelled from the spec: the expression AST (`ast.rs` is not in the
provided sources); the variants are exactly those `eval` dispatches on. -/
inductive Expr : Type where
  | braceLit : List Seq → Expr
  | bracketLit : List Seq → Expr
  | boolLit : Bool → Expr
  | integerLit : Int → Expr
  | stringLit : String → Expr
  | ifThenElse : Expr → Expr → Expr → Expr
  | var : String → Expr
  | field : String → Expr → Expr
  | letE : String → Expr → Expr → Expr
  | call : Expr → List Expr → Expr
  | lam : List String → Expr → Expr
  | unOp : UnOp → Expr → Expr
  | binOp : BinOp → Span → Expr → Expr → Expr

/-- Modelled from the spec: sequence (comprehension) clauses, as
dispatched by `eval_seq`. -/
inductive Seq : Type where
  | elem : Span → Expr → Seq
  | assoc : Span → Expr → Expr → Seq
  | forS : List String → Expr → Seq → Seq
  | ifS : Expr → Seq → Seq
  | letS : String → Expr → Seq → Seq

end

/-- The diagnostic name of a builtin. -/
def Builtin.name : Builtin → String
  | .string_len _ => "String.len"
  | .map_contains _ => "Map.contains"
  | .map_get _ => "Map.get"
  | .list_contains _ => "List.contains"

/-- Apply a builtin to an argument list: the behaviour of the closures
constructed by `builtin_string_len`, `builtin_map_contains`,
`builtin_map_get` and `builtin_list_contains`. -/
def applyBuiltin : Builtin → List Value → Except Error Value
  | .string_len n, [] => .ok (.int n)
  | .string_len _, _ => .error (.msg "String.len takes no arguments.")
  | .map_contains m, [a] =>
    match m with
    | .map entries => .ok (.bool (lookupKey a entries).isSome)
    | _ => .error (.fatal "Should not have made a Map.contains for this value.")
  | .map_contains _, _ => .error (.msg "Map.contains takes a single argument.")
  | .map_get m, [k, d] =>
    match m with
    | .map entries =>
      match lookupKey k entries with
      | some v => .ok v
      | none => .ok d
    | _ => .error (.fatal "Should not have made a Map.get for this value.")
  | .map_get _, _ => .error (.msg "Map.get takes two arguments.")
  | .list_contains l, [a] =>
    match l with
    | .list xs => .ok (.bool (xs.any (fun x => valueEq x a)))
    | _ => .error (.fatal "Should not have made a List.contains for this value.")
  | .list_contains _, _ => .error (.msg "List.contains takes a single argument.")

/-- The `i64` range bounds for checked arithmetic. -/
def i64Min : Int := -(2 ^ 63)

/-- The largest representable `i64`. -/
def i64Max : Int := 2 ^ 63 - 1

/-- `i64::checked_add` on mathematical integers: the exact sum when it is
representable, otherwise `none`. -/
def checkedAdd (x y : Int) : Option Int :=
  if i64Min ≤ x + y ∧ x + y ≤ i64Max then some (x + y) else none

/-- `i64::checked_mul` on mathematical integers: the exact product when
it is representable, otherwise `none`. -/
def checkedMul (x y : Int) : Option Int :=
  if i64Min ≤ x * y ∧ x * y ≤ i64Max then some (x * y) else none

/-- `eval_unop` from `eval.rs`. -/
def eval_unop : UnOp → Value → Except Error Value
  | .neg, .bool x => .ok (.bool (!x))
  | _, _ => .error (.msg "The unary operator is not supported for this value.")

/-- `eval_binop` from `eval.rs`. -/
def eval_binop (op : BinOp) (op_span : Span) (lhs rhs : Value) : Except Error Value :=
  match op, lhs, rhs with
  | .union, .map xs, .map ys => .ok (.map (mapUnion xs ys))
  | .union, .set xs, .set ys => .ok (.set (setInsertAll xs ys))
  | .union, .set xs, .list ys => .ok (.set (setInsertAll xs ys))
  | .and, .bool x, .bool y => .ok (.bool (x && y))
  | .or, .bool x, .bool y => .ok (.bool (x || y))
  | .add, .int x, .int y =>
    match checkedAdd x y with
    | some z => .ok (.int z)
    | none => .error (.atSpan op_span "Addition would overflow.")
  | .mul, .int x, .int y =>
    match checkedMul x y with
    | some z => .ok (.int z)
    | none => .error (.atSpan op_span "Multiplication would overflow.")
  | .lt, .int x, .int y => .ok (.bool (decide (x < y)))
  | .gt, .int x, .int y => .ok (.bool (decide (x > y)))
  | .ltEq, .int x, .int y => .ok (.bool (decide (x ≤ y)))
  | .gtEq, .int x, .int y => .ok (.bool (decide (x ≥ y)))
  | _, _, _ => .error (.msg "The binary operator is not supported for this value.")

/-- The sequence accumulator `SeqOut` from `eval.rs`. -/
inductive SeqOut : Type where
  | list : List Value → SeqOut
  | set : Span → List Value → SeqOut
  | record : Span → List Value → List Value → SeqOut
  | setOrRecord : SeqOut

/-- The state-transition/erroring half of `SeqOut::values`: commit an
undetermined accumulator to `Set` with the scalar's span as evidence, or
report the shape conflict. (`SeqOut::values` returns a mutable slot; we
split it into this check and `push_value` below, with the value pushed
after the clause's expression has evaluated, exactly as in `eval_seq`.) -/
def SeqOut.values_check : SeqOut → Span → Except Error SeqOut
  | .setOrRecord, scalar => .ok (.set scalar [])
  | .list vs, _ => .ok (.list vs)
  | .set first vs, _ => .ok (.set first vs)
  | .record first _ _, scalar =>
    .error (.withNote scalar "Expected key-value, not a scalar element."
      first "The collection is a record and not a set, because of this key-value.")

/-- Append an evaluated scalar into the accumulator slot obtained from
`values_check` (the `record`/`setOrRecord` cases are unreachable after a
successful check and leave the accumulator unchanged). -/
def SeqOut.push_value : SeqOut → Value → SeqOut
  | .list vs, v => .list (vs ++ [v])
  | .set first vs, v => .set first (vs ++ [v])
  | out, _ => out

/-- The state-transition/erroring half of `SeqOut::keys_values`: commit
an undetermined accumulator to `Record` with the key-value's span as
evidence, or report the shape conflict (with the dedicated help text in
the list case). -/
def SeqOut.keys_values_check : SeqOut → Span → Except Error SeqOut
  | .setOrRecord, kv => .ok (.record kv [] [])
  | .list _, kv =>
    .error (.withHelp kv "Expected scalar element, not key-value."
      "Key-value pairs are allowed in records, which are enclosed in '{}', not '[]'.")
  | .set first _, kv =>
    .error (.withNote kv "Expected scalar element, not key-value."
      first "The collection is a set and not a record, because of this scalar value.")
  | .record first ks vs, _ => .ok (.record first ks vs)

/-- Append an evaluated key-value pair into the accumulator slots
obtained from `keys_values_check` (other cases unreachable after a
successful check). -/
def SeqOut.push_key_value : SeqOut → Value → Value → SeqOut
  | .record first ks vs, k, v => .record first (ks ++ [k]) (vs ++ [v])
  | out, _, _ => out

/-- Run a step once per element of an iterated collection, threading the
accumulator and environment; an error aborts the remaining iterations
(models the `for x in xs` loops of `Seq::For`). -/
def iterValues (step : Value → SeqOut → Env → (Except Error SeqOut) × Env) :
    List Value → SeqOut → Env → (Except Error SeqOut) × Env
  | [], out, env => (.ok out, env)
  | x :: xs, out, env =>
    match step x out env with
    | (.ok out', env') => iterValues step xs out' env'
    | err => err

/-- Like `iterValues`, for the `(key, value)` iteration over map
entries. -/
def iterEntries (step : Value → Value → SeqOut → Env → (Except Error SeqOut) × Env) :
    List (Value × Value) → SeqOut → Env → (Except Error SeqOut) × Env
  | [], out, env => (.ok out, env)
  | (k, v) :: xs, out, env =>
    match step k v out env with
    | (.ok out', env') => iterEntries step xs out' env'
    | err => err

mutual

/-- `eval` from `eval.rs`. The Rust signature is
`eval(env: &mut Env, expr: &Expr) -> Result<Rc<Value>>`; the mutable
environment is made explicit by returning the final environment next to
the result, on the error path as well (an early `?` return leaves the
environment exactly as the failing sub-evaluation left it). -/
def eval : Env → Expr → (Except Error Value) × Env
  | env, .braceLit seqs =>
    match evalSeqs env seqs .setOrRecord with
    | (.error e, env') => (.error e, env')
    | (.ok out, env') =>
      match out with
      | .setOrRecord => (.ok (.set []), env')
      | .set _ vs => (.ok (.set (setFromList vs)), env')
      | .record _ ks vs => (.ok (.map (mapFromEntries ks vs)), env')
      | .list _ => (.error (.fatal "Did not start out as list."), env')
  | env, .bracketLit seqs =>
    match evalSeqs env seqs (.list []) with
    | (.error e, env') => (.error e, env')
    | (.ok out, env') =>
      match out with
      | .list vs => (.ok (.list vs), env')
      | _ => (.error (.fatal "SeqOut::List type is preserved."), env')
  | env, .boolLit b => (.ok (.bool b), env)
  | env, .integerLit i => (.ok (.int i), env)
  | env, .stringLit s => (.ok (.string s), env)
  | env, .ifThenElse if_ then_ else_ =>
    match eval env if_ with
    | (.error e, env') => (.error e, env')
    | (.ok cond, env') =>
      match cond with
      | .bool true => eval env' then_
      | .bool false => eval env' else_
      | _ => (.error (.msg "Condition should be boolean."), env')
  | env, .var name =>
    match Env.lookup env name with
    | some v => (.ok v, env)
    | none => (.error (.msg "Variable not found."), env)
  | env, .field field_name inner_expr =>
    match eval env inner_expr with
    | (.error e, env') => (.error e, env')
    | (.ok inner, env') =>
      match inner with
      | .string s =>
        if field_name = "len"
        then (.ok (.builtin (.string_len (String.utf8ByteSize s : Int))), env')
        else (.error (.msg "No such field in this string."), env')
      | .map fields =>
        -- First test for the builtin names; they shadow the values.
        if field_name = "contains"
        then (.ok (.builtin (.map_contains (.map fields))), env')
        else if field_name = "get"
        then (.ok (.builtin (.map_get (.map fields))), env')
        else
          match lookupKey (.string field_name) fields with
          | some v => (.ok v, env')
          | none => (.error (.msg "No such field in this value."), env')
      | .list xs =>
        if field_name = "contains"
        then (.ok (.builtin (.list_contains (.list xs))), env')
        else (.error (.msg "No such field in this list."), env')
      | _ => (.error (.msg "Can only do field access on records for now."), env')
  | env, .letE ident value body =>
    -- Not a recursive let: the variable is not bound while evaluating
    -- the bound expression.
    match eval env value with
    | (.error e, env') => (.error e, env')
    | (.ok v, env₁) =>
      match eval (Env.push env₁ ident v) body with
      | (.ok result, env₂) => (.ok result, Env.pop env₂)
      | err => err
  | env, .call fun_expr args_exprs =>
    -- Strict evaluation: all arguments are evaluated before the call.
    match eval env fun_expr with
    | (.error e, env') => (.error e, env')
    | (.ok f, env₁) =>
      match evalArgs env₁ args_exprs with
      | (.error e, env') => (.error e, env')
      | (.ok args, env₂) =>
        match f with
        | .builtin b => (applyBuiltin b args, env₂)
        | _ => (.error (.msg "Can only call functions."), env₂)
  | env, .lam _ _ => (.error (.fatal "TODO: Define lambdas."), env)
  | env, .unOp op value_expr =>
    match eval env value_expr with
    | (.error e, env') => (.error e, env')
    | (.ok v, env') => (eval_unop op v, env')
  | env, .binOp op op_span lhs_expr rhs_expr =>
    match eval env lhs_expr with
    | (.error e, env') => (.error e, env')
    | (.ok lhs, env₁) =>
      match eval env₁ rhs_expr with
      | (.error e, env') => (.error e, env')
      | (.ok rhs, env₂) => (eval_binop op op_span lhs rhs, env₂)

/-- The `for seq in seqs { eval_seq(env, seq, &mut out)? }` loops in
`eval`'s brace/bracket-literal cases. -/
def evalSeqs : Env → List Seq → SeqOut → (Except Error SeqOut) × Env
  | env, [], out => (.ok out, env)
  | env, seq :: rest, out =>
    match eval_seq env seq out with
    | (.ok out', env') => evalSeqs env' rest out'
    | err => err

/-- The argument-collection loop in `eval`'s call case: left-to-right,
stopping at the first error. -/
def evalArgs : Env → List Expr → (Except Error (List Value)) × Env
  | env, [] => (.ok [], env)
  | env, e :: rest =>
    match eval env e with
    | (.error err, env') => (.error err, env')
    | (.ok v, env₁) =>
      match evalArgs env₁ rest with
      | (.error err, env') => (.error err, env')
      | (.ok vs, env₂) => (.ok (v :: vs), env₂)

/-- `eval_seq` from `eval.rs`, with the shared `&mut SeqOut` accumulator
made explicit: a successful evaluation returns the updated accumulator
(the erroring path returns the error and final environment; the caller
discards the accumulator on error, as every Rust caller does). -/
def eval_seq : Env → Seq → SeqOut → (Except Error SeqOut) × Env
  | env, .elem span value_expr, out =>
    match SeqOut.values_check out span with
    | .error e => (.error e, env)
    | .ok out₁ =>
      match eval env value_expr with
      | (.error e, env') => (.error e, env')
      | (.ok v, env') => (.ok (SeqOut.push_value out₁ v), env')
  | env, .assoc op_span key_expr value_expr, out =>
    match SeqOut.keys_values_check out op_span with
    | .error e => (.error e, env)
    | .ok out₁ =>
      match eval env key_expr with
      | (.error e, env') => (.error e, env')
      | (.ok k, env₁) =>
        match eval env₁ value_expr with
        | (.error e, env') => (.error e, env')
        | (.ok v, env₂) => (.ok (SeqOut.push_key_value out₁ k v), env₂)
  | env, .forS idents collection body, out =>
    match eval env collection with
    | (.error e, env') => (.error e, env')
    | (.ok collection_value, env₁) =>
      match idents, collection_value with
      | [name], .list xs =>
        iterValues
          (fun x out' env' =>
            match eval_seq (Env.push env' name x) body out' with
            | (.ok o, e) => (.ok o, Env.pop e)
            | err => err)
          xs out env₁
      | [name], .set xs =>
        iterValues
          (fun x out' env' =>
            match eval_seq (Env.push env' name x) body out' with
            | (.ok o, e) => (.ok o, Env.pop e)
            | err => err)
          xs out env₁
      | [k_name, v_name], .map xs =>
        iterEntries
          (fun k v out' env' =>
            match eval_seq (Env.push (Env.push env' k_name k) v_name v) body out' with
            | (.ok o, e) => (.ok o, Env.pop (Env.pop e))
            | err => err)
          xs out env₁
      | _, _ => (.error (.msg "Iteration is not supported like this."), env₁)
  | env, .ifS condition body, out =>
    match eval env condition with
    | (.error e, env') => (.error e, env')
    | (.ok cond, env') =>
      match cond with
      | .bool true => eval_seq env' body out
      | .bool false => (.ok out, env')
      | _ => (.error (.msg "Comprehension condition should be boolean."), env')
  | env, .letS ident value body, out =>
    match eval env value with
    | (.error e, env') => (.error e, env')
    | (.ok v, env₁) =>
      match eval_seq (Env.push env₁ ident v) body out with
      | (.ok o, e) => (.ok o, Env.pop e)
      | err => err

end

/-- The `BTreeMap` representation invariant: entries strictly ascending
by key, stated in the pairwise form (every entry's key is below every
later entry's key). -/
def SortedKeys (m : List (Value × Value)) : Prop :=
  m.Pairwise (fun p q => Value.cmp p.1 q.1 = .lt)

/-- The `BTreeSet` representation invariant: elements strictly
ascending. -/
def SortedSet (s : List Value) : Prop :=
  s.Pairwise (fun a b => Value.cmp a b = .lt)

instance (m : List (Value × Value)) : Decidable (SortedKeys m) :=
  inferInstanceAs (Decidable (List.Pairwise _ m))

instance (s : List Value) : Decidable (SortedSet s) :=
  inferInstanceAs (Decidable (List.Pairwise _ s))

/-! ## Lawfulness of the value order -/

theorem cmpBool_eq_iff (a b : Bool) : cmpBool a b = .eq ↔ a = b := by
  cases a <;> cases b <;> simp [cmpBool]

theorem cmpBool_swap (a b : Bool) : cmpBool a b = (cmpBool b a).swap := by
  cases a <;> cases b <;> rfl

theorem cmpInt_eq_iff (a b : Int) : cmpInt a b = .eq ↔ a = b := by
  unfold cmpInt
  by_cases h1 : a < b
  · simp only [h1, if_true]
    constructor
    · intro h; cases h
    · intro h; omega
  · by_cases h2 : a = b <;> simp [h1, h2]

theorem cmpInt_swap (a b : Int) : cmpInt a b = (cmpInt b a).swap := by
  unfold cmpInt
  rcases lt_trichotomy a b with h | h | h
  · have h2 : ¬b < a := by omega
    have h3 : b ≠ a := by omega
    simp [h, h2, h3, Ordering.swap]
  · simp [h, lt_irrefl, Ordering.swap]
  · have h2 : ¬a < b := by omega
    have h3 : a ≠ b := by omega
    simp [h, h2, h3, Ordering.swap]

theorem cmpNat_eq_iff (a b : Nat) : cmpNat a b = .eq ↔ a = b := by
  unfold cmpNat
  by_cases h1 : a < b
  · simp only [h1, if_true]
    constructor
    · intro h; cases h
    · intro h; omega
  · by_cases h2 : a = b <;> simp [h1, h2]

theorem cmpNat_swap (a b : Nat) : cmpNat a b = (cmpNat b a).swap := by
  unfold cmpNat
  rcases lt_trichotomy a b with h | h | h
  · have h2 : ¬b < a := by omega
    have h3 : b ≠ a := by omega
    simp [h, h2, h3, Ordering.swap]
  · simp [h, lt_irrefl, Ordering.swap]
  · have h2 : ¬a < b := by omega
    have h3 : a ≠ b := by omega
    simp [h, h2, h3, Ordering.swap]

theorem cmpChar_eq_iff (a b : Char) : cmpChar a b = .eq ↔ a = b := by
  unfold cmpChar
  rw [cmpNat_eq_iff]
  constructor
  · intro h
    exact Char.eq_of_val_eq (UInt32.ext h)
  · intro h; rw [h]

theorem cmpChar_swap (a b : Char) : cmpChar a b = (cmpChar b a).swap :=
  cmpNat_swap _ _

theorem ordering_then_eq (o p : Ordering) : o.then p = .eq ↔ o = .eq ∧ p = .eq := by
  cases o <;> simp [Ordering.then]

theorem ordering_then_swap (o p : Ordering) : (o.then p).swap = o.swap.then p.swap := by
  cases o <;> rfl

theorem cmpCharList_eq_iff : ∀ xs ys : List Char, cmpCharList xs ys = .eq ↔ xs = ys
  | [], [] => by simp [cmpCharList]
  | [], _ :: _ => by simp [cmpCharList]
  | _ :: _, [] => by simp [cmpCharList]
  | x :: xs, y :: ys => by
    simp only [cmpCharList]
    rw [ordering_then_eq, cmpChar_eq_iff, cmpCharList_eq_iff xs ys]
    simp

theorem cmpCharList_swap : ∀ xs ys : List Char, cmpCharList xs ys = (cmpCharList ys xs).swap
  | [], [] => rfl
  | [], _ :: _ => rfl
  | _ :: _, [] => rfl
  | x :: xs, y :: ys => by
    simp only [cmpCharList]
    rw [cmpChar_swap x y, cmpCharList_swap xs ys, ordering_then_swap]

theorem cmpString_eq_iff (a b : String) : cmpString a b = .eq ↔ a = b := by
  unfold cmpString
  rw [cmpCharList_eq_iff]
  constructor
  · exact String.ext
  · intro h; rw [h]

theorem cmpString_swap (a b : String) : cmpString a b = (cmpString b a).swap :=
  cmpCharList_swap _ _

/-- Combined lawfulness of the value order, by strong induction on
size: comparing equal yields exactly structural equality, and the order
is antisymmetric under operand swap. -/
theorem cmp_laws : ∀ n : Nat,
    (∀ a b : Value, sizeOf a ≤ n →
      ((Value.cmp a b = .eq ↔ a = b) ∧ Value.cmp a b = (Value.cmp b a).swap)) ∧
    (∀ xs ys : List Value, sizeOf xs ≤ n →
      ((Value.cmpList xs ys = .eq ↔ xs = ys) ∧
        Value.cmpList xs ys = (Value.cmpList ys xs).swap)) ∧
    (∀ xs ys : List (Value × Value), sizeOf xs ≤ n →
      ((Value.cmpPairs xs ys = .eq ↔ xs = ys) ∧
        Value.cmpPairs xs ys = (Value.cmpPairs ys xs).swap)) ∧
    (∀ f g : Builtin, sizeOf f ≤ n →
      ((Value.cmpBuiltin f g = .eq ↔ f = g) ∧
        Value.cmpBuiltin f g = (Value.cmpBuiltin g f).swap)) := by
  intro n
  induction n with
  | zero =>
    refine ⟨?_, ?_, ?_, ?_⟩
    · intro a _ h; cases a <;> simp at h
    · intro xs _ h; cases xs <;> simp at h
    · intro xs _ h; cases xs <;> simp at h
    · intro f _ h; cases f <;> simp at h
  | succ n ih =>
    obtain ⟨ihV, ihL, ihP, ihB⟩ := ih
    refine ⟨?_, ?_, ?_, ?_⟩
    · intro a b ha
      cases a <;> cases b <;> simp only [Value.cmp] <;> try exact ⟨by simp, rfl⟩
      case bool.bool x y => exact ⟨by rw [cmpBool_eq_iff]; simp, cmpBool_swap x y⟩
      case int.int x y => exact ⟨by rw [cmpInt_eq_iff]; simp, cmpInt_swap x y⟩
      case string.string x y => exact ⟨by rw [cmpString_eq_iff]; simp, cmpString_swap x y⟩
      case list.list xs ys =>
        have h1 : sizeOf xs ≤ n := by simp at ha; omega
        obtain ⟨hiff, hswap⟩ := ihL xs ys h1
        exact ⟨by rw [hiff]; simp, hswap⟩
      case set.set xs ys =>
        have h1 : sizeOf xs ≤ n := by simp at ha; omega
        obtain ⟨hiff, hswap⟩ := ihL xs ys h1
        exact ⟨by rw [hiff]; simp, hswap⟩
      case map.map xs ys =>
        have h1 : sizeOf xs ≤ n := by simp at ha; omega
        obtain ⟨hiff, hswap⟩ := ihP xs ys h1
        exact ⟨by rw [hiff]; simp, hswap⟩
      case builtin.builtin f g =>
        have h1 : sizeOf f ≤ n := by simp at ha; omega
        obtain ⟨hiff, hswap⟩ := ihB f g h1
        exact ⟨by rw [hiff]; simp, hswap⟩
    · intro xs ys ha
      cases xs <;> cases ys <;> simp only [Value.cmpList] <;> try exact ⟨by simp, rfl⟩
      case cons.cons x xs y ys =>
        have hx : sizeOf x ≤ n := by simp at ha; omega
        have ht : sizeOf xs ≤ n := by simp at ha; omega
        obtain ⟨hx_iff, hx_swap⟩ := ihV x y hx
        obtain ⟨ht_iff, ht_swap⟩ := ihL xs ys ht
        constructor
        · rw [ordering_then_eq, hx_iff, ht_iff]; simp
        · rw [hx_swap, ht_swap, ordering_then_swap]
    · intro xs ys ha
      cases xs <;> cases ys <;> simp only [Value.cmpPairs] <;> try exact ⟨by simp, rfl⟩
      case cons.cons p xs q ys =>
        obtain ⟨k, v⟩ := p
        obtain ⟨k', v'⟩ := q
        have hk : sizeOf k ≤ n := by simp at ha; omega
        have hv : sizeOf v ≤ n := by simp at ha; omega
        have ht : sizeOf xs ≤ n := by simp at ha; omega
        obtain ⟨hk_iff, hk_swap⟩ := ihV k k' hk
        obtain ⟨hv_iff, hv_swap⟩ := ihV v v' hv
        obtain ⟨ht_iff, ht_swap⟩ := ihP xs ys ht
        simp only [Value.cmpPairs]
        constructor
        · rw [ordering_then_eq, ordering_then_eq, hk_iff, hv_iff, ht_iff]
          constructor
          · rintro ⟨h1, h2, h3⟩; rw [h1, h2, h3]
          · intro h
            injection h with h1 h3
            injection h1 with hk he
            exact ⟨hk, he, h3⟩
        · rw [hk_swap, hv_swap, ht_swap, ordering_then_swap, ordering_then_swap]
    · intro f g ha
      cases f <;> cases g <;> simp only [Value.cmpBuiltin] <;> try exact ⟨by simp, rfl⟩
      case string_len.string_len x y => exact ⟨by rw [cmpInt_eq_iff]; simp, cmpInt_swap x y⟩
      case map_contains.map_contains x y =>
        have h1 : sizeOf x ≤ n := by simp at ha; omega
        obtain ⟨hiff, hswap⟩ := ihV x y h1
        exact ⟨by rw [hiff]; simp, hswap⟩
      case map_get.map_get x y =>
        have h1 : sizeOf x ≤ n := by simp at ha; omega
        obtain ⟨hiff, hswap⟩ := ihV x y h1
        exact ⟨by rw [hiff]; simp, hswap⟩
      case list_contains.list_contains x y =>
        have h1 : sizeOf x ≤ n := by simp at ha; omega
        obtain ⟨hiff, hswap⟩ := ihV x y h1
        exact ⟨by rw [hiff]; simp, hswap⟩

/-- Comparing equal is exactly structural equality. -/
theorem Value.cmp_eq_iff (a b : Value) : Value.cmp a b = .eq ↔ a = b :=
  ((cmp_laws (sizeOf a)).1 a b le_rfl).1

/-- The order is antisymmetric under operand swap. -/
theorem Value.cmp_swap (a b : Value) : Value.cmp a b = (Value.cmp b a).swap :=
  ((cmp_laws (sizeOf a)).1 a b le_rfl).2

/-- Every value compares equal to itself. -/
theorem Value.cmp_refl (a : Value) : Value.cmp a a = .eq :=
  (Value.cmp_eq_iff a a).mpr rfl

/-- `lt` against `gt` under operand swap. -/
theorem Value.cmp_lt_iff_gt (a b : Value) : Value.cmp a b = .lt ↔ Value.cmp b a = .gt := by
  rw [Value.cmp_swap a b]
  cases Value.cmp b a <;> simp [Ordering.swap]

instance : DecidableEq Value := fun a b => decidable_of_iff _ (Value.cmp_eq_iff a b)

instance : DecidableEq (Except Error Value) := fun a b =>
  match a, b with
  | .ok x, .ok y => decidable_of_iff (x = y) (by simp)
  | .ok _, .error _ => .isFalse (fun h => Except.noConfusion h)
  | .error _, .ok _ => .isFalse (fun h => Except.noConfusion h)
  | .error x, .error y => decidable_of_iff (x = y) (by simp)

instance : DecidableEq (Except Error (List Value)) := fun a b =>
  match a, b with
  | .ok x, .ok y => decidable_of_iff (x = y) (by simp)
  | .ok _, .error _ => .isFalse (fun h => Except.noConfusion h)
  | .error _, .ok _ => .isFalse (fun h => Except.noConfusion h)
  | .error x, .error y => decidable_of_iff (x = y) (by simp)

/-! ## Collection invariants and lemmas -/

theorem mem_setInsert (x v : Value) :
    ∀ s : List Value, v ∈ setInsert x s ↔ v = x ∨ v ∈ s := by
  intro s
  induction s with
  | nil => simp [setInsert]
  | cons y rest ih =>
    simp only [setInsert]
    cases h : Value.cmp x y
    · simp [List.mem_cons]
    · have hxy : x = y := (Value.cmp_eq_iff x y).mp h
      subst hxy
      simp only [List.mem_cons]
      constructor
      · intro hc; exact Or.inr hc
      · rintro (hc | hc)
        · exact Or.inl hc
        · exact hc
    · simp only [List.mem_cons, ih]
      tauto

theorem mem_setInsertAll (v : Value) :
    ∀ ys xs : List Value, v ∈ setInsertAll xs ys ↔ v ∈ xs ∨ v ∈ ys := by
  intro ys
  induction ys with
  | nil => simp [setInsertAll]
  | cons y rest ih =>
    intro xs
    show v ∈ setInsertAll (setInsert y xs) rest ↔ _
    rw [ih (setInsert y xs), mem_setInsert]
    simp only [List.mem_cons]
    tauto

theorem mem_setFromList (v : Value) (vs : List Value) :
    v ∈ setFromList vs ↔ v ∈ vs := by
  show v ∈ setInsertAll [] vs ↔ _
  rw [mem_setInsertAll]
  simp

theorem lookupKey_mapInsert (k k' v' : Value) :
    ∀ m : List (Value × Value), lookupKey k (mapInsert k' v' m) =
      if Value.cmp k k' = .eq then some v' else lookupKey k m := by
  intro m
  induction m with
  | nil =>
    simp only [mapInsert, lookupKey]
    cases h : Value.cmp k k' <;> simp [h, lookupKey]
  | cons p rest ih =>
    obtain ⟨a, b⟩ := p
    simp only [mapInsert]
    cases h : Value.cmp k' a
    · simp only [lookupKey]
      cases hk : Value.cmp k k' <;> simp_all [lookupKey]
    · have : k' = a := (Value.cmp_eq_iff k' a).mp h
      subst this
      simp only [lookupKey]
      cases hk : Value.cmp k k' <;> simp_all
    · simp only [lookupKey]
      cases hk : Value.cmp k a
      · have hne : ¬Value.cmp k k' = .eq := by
          intro he
          have : k = k' := (Value.cmp_eq_iff k k').mp he
          subst this
          rw [hk] at h
          exact Ordering.noConfusion h
        simp [hne, ih]
      · have hka : k = a := (Value.cmp_eq_iff k a).mp hk
        subst hka
        have hne : ¬Value.cmp k k' = .eq := by
          intro he
          have : k = k' := (Value.cmp_eq_iff k k').mp he
          subst this
          rw [Value.cmp_refl] at h
          exact Ordering.noConfusion h
        simp [hne]
      · simp [ih]

theorem lookupKey_eq_none (k : Value) :
    ∀ m : List (Value × Value), (∀ p ∈ m, ¬Value.cmp k p.1 = .eq) →
      lookupKey k m = none := by
  intro m
  induction m with
  | nil => intro _; rfl
  | cons p rest ih =>
    intro h
    obtain ⟨a, b⟩ := p
    simp only [lookupKey]
    have ha := h (a, b) (List.mem_cons_self _ _)
    cases hk : Value.cmp k a
    · exact ih fun q hq => h q (List.mem_cons_of_mem _ hq)
    · exact absurd hk ha
    · exact ih fun q hq => h q (List.mem_cons_of_mem _ hq)

/-- The right-biased lookup characterisation of `mapUnion`: a key found
in the right map wins; otherwise the left map decides. -/
theorem lookupKey_mapUnion (k : Value) :
    ∀ m2 m1 : List (Value × Value), SortedKeys m2 →
      lookupKey k (mapUnion m1 m2) =
        match lookupKey k m2 with
        | some v => some v
        | none => lookupKey k m1 := by
  intro m2
  induction m2 with
  | nil => intro m1 _; rfl
  | cons p rest ih =>
    intro m1 hs
    obtain ⟨k2, v2⟩ := p
    rw [SortedKeys, List.pairwise_cons] at hs
    obtain ⟨hall, hrest⟩ := hs
    show lookupKey k (mapUnion (mapInsert k2 v2 m1) rest) = _
    rw [ih (mapInsert k2 v2 m1) hrest]
    simp only [lookupKey]
    cases hk : Value.cmp k k2
    · rw [lookupKey_mapInsert]
      simp [hk]
    · have hkk : k = k2 := (Value.cmp_eq_iff k k2).mp hk
      subst hkk
      have hnone : lookupKey k rest = none := by
        apply lookupKey_eq_none
        intro q hq he
        have : k = q.1 := (Value.cmp_eq_iff k q.1).mp he
        have hlt := hall q hq
        rw [← this, Value.cmp_refl] at hlt
        exact Ordering.noConfusion hlt
      rw [hnone, lookupKey_mapInsert]
      simp [Value.cmp_refl]
    · rw [lookupKey_mapInsert]
      simp [hk]

theorem mapInsert_append (k v : Value) :
    ∀ m : List (Value × Value), (∀ p ∈ m, Value.cmp p.1 k = .lt) →
      mapInsert k v m = m ++ [(k, v)] := by
  intro m
  induction m with
  | nil => intro _; rfl
  | cons p rest ih =>
    intro h
    obtain ⟨a, b⟩ := p
    have ha := h (a, b) (List.mem_cons_self _ _)
    have hgt : Value.cmp k a = .gt := (Value.cmp_lt_iff_gt a k).mp ha
    simp only [mapInsert, hgt]
    rw [ih fun q hq => h q (List.mem_cons_of_mem _ hq)]
    simp

theorem mapUnion_append :
    ∀ m acc : List (Value × Value),
      (∀ p ∈ acc, ∀ q ∈ m, Value.cmp p.1 q.1 = .lt) → SortedKeys m →
      mapUnion acc m = acc ++ m := by
  intro m
  induction m with
  | nil => intro acc _ _; simp [mapUnion]
  | cons p rest ih =>
    intro acc hcross hs
    obtain ⟨k, v⟩ := p
    rw [SortedKeys, List.pairwise_cons] at hs
    obtain ⟨hall, hrest⟩ := hs
    show mapUnion (mapInsert k v acc) rest = _
    rw [mapInsert_append k v acc
        (fun q hq => hcross q hq (k, v) (List.mem_cons_self _ _))]
    rw [ih (acc ++ [(k, v)]) ?_ hrest]
    · simp
    · intro q hq r hr
      rcases List.mem_append.mp hq with hq' | hq'
      · exact hcross q hq' r (List.mem_cons_of_mem _ hr)
      · have : q = (k, v) := by simpa using hq'
        subst this
        exact hall r hr

/-- `{} ∪ m == m` for maps satisfying the representation invariant. -/
theorem mapUnion_nil_left (m : List (Value × Value)) (h : SortedKeys m) :
    mapUnion [] m = m := by
  rw [mapUnion_append m [] (by simp) h]
  simp

/-- `m ∪ {} == m` for every map. -/
theorem mapUnion_nil_right (m : List (Value × Value)) : mapUnion m [] = m := rfl

/-! ## Environment preservation on success -/

theorem iterValues_env_preserved
    (step : Value → SeqOut → Env → (Except Error SeqOut) × Env)
    (hstep : ∀ x out env out' env', step x out env = (.ok out', env') → env' = env) :
    ∀ xs out env out' env', iterValues step xs out env = (.ok out', env') → env' = env := by
  intro xs
  induction xs with
  | nil =>
    intro out env out' env' h
    simp only [iterValues, Prod.mk.injEq] at h
    exact h.2.symm
  | cons x xs ih =>
    intro out env out' env' h
    simp only [iterValues] at h
    rcases hs : step x out env with ⟨r, env1⟩
    rw [hs] at h
    cases r with
    | ok o =>
      have h1 := ih o env1 out' env' h
      rw [h1]
      exact hstep x out env o env1 hs
    | error e => simp [Prod.mk.injEq] at h

theorem iterEntries_env_preserved
    (step : Value → Value → SeqOut → Env → (Except Error SeqOut) × Env)
    (hstep : ∀ k v out env out' env', step k v out env = (.ok out', env') → env' = env) :
    ∀ xs out env out' env', iterEntries step xs out env = (.ok out', env') → env' = env := by
  intro xs
  induction xs with
  | nil =>
    intro out env out' env' h
    simp only [iterEntries, Prod.mk.injEq] at h
    exact h.2.symm
  | cons p xs ih =>
    intro out env out' env' h
    obtain ⟨k, v⟩ := p
    simp only [iterEntries] at h
    rcases hs : step k v out env with ⟨r, env1⟩
    rw [hs] at h
    cases r with
    | ok o =>
      have h1 := ih o env1 out' env' h
      rw [h1]
      exact hstep k v out env o env1 hs
    | error e => simp [Prod.mk.injEq] at h

/-- On every successful evaluation the environment is returned exactly
as it was received: all pushes are matched by pops on the success path.
Proved for the four mutually recursive evaluation functions at once, by
strong induction on the size of the evaluated syntax. -/
theorem env_preservation : ∀ n : Nat,
    (∀ e : Expr, sizeOf e ≤ n → ∀ env r env', eval env e = (.ok r, env') → env' = env) ∧
    (∀ ss : List Seq, sizeOf ss ≤ n →
      ∀ env out out' env', evalSeqs env ss out = (.ok out', env') → env' = env) ∧
    (∀ es : List Expr, sizeOf es ≤ n →
      ∀ env vs env', evalArgs env es = (.ok vs, env') → env' = env) ∧
    (∀ s : Seq, sizeOf s ≤ n →
      ∀ env out out' env', eval_seq env s out = (.ok out', env') → env' = env) := by
  intro n
  induction n with
  | zero =>
    refine ⟨?_, ?_, ?_, ?_⟩
    · intro e he; cases e <;> simp at he
    · intro ss hs; cases ss <;> simp at hs
    · intro es hs; cases es <;> simp at hs
    · intro s hs; cases s <;> simp at hs
  | succ n ih =>
    obtain ⟨ihE, ihSs, ihAs, ihS⟩ := ih
    refine ⟨?_, ?_, ?_, ?_⟩
    · intro e he env r env' h
      cases e with
      | braceLit seqs =>
        have hb : sizeOf seqs ≤ n := by simp at he; omega
        simp only [eval] at h
        rcases hs : evalSeqs env seqs .setOrRecord with ⟨rs, env1⟩
        rw [hs] at h
        cases rs with
        | ok out =>
          have h1 := ihSs seqs hb env .setOrRecord out env1 hs
          cases out <;> simp only [Prod.mk.injEq] at h <;> exact h.2.symm.trans h1
        | error e => simp at h
      | bracketLit seqs =>
        have hb : sizeOf seqs ≤ n := by simp at he; omega
        simp only [eval] at h
        rcases hs : evalSeqs env seqs (.list []) with ⟨rs, env1⟩
        rw [hs] at h
        cases rs with
        | ok out =>
          have h1 := ihSs seqs hb env (.list []) out env1 hs
          cases out <;> simp only [Prod.mk.injEq] at h <;> exact h.2.symm.trans h1
        | error e => simp at h
      | boolLit b =>
        simp only [eval, Prod.mk.injEq] at h
        exact h.2.symm
      | integerLit i =>
        simp only [eval, Prod.mk.injEq] at h
        exact h.2.symm
      | stringLit s =>
        simp only [eval, Prod.mk.injEq] at h
        exact h.2.symm
      | ifThenElse c t f =>
        have hc : sizeOf c ≤ n := by simp at he; omega
        have ht : sizeOf t ≤ n := by simp at he; omega
        have hf : sizeOf f ≤ n := by simp at he; omega
        simp only [eval] at h
        rcases hcv : eval env c with ⟨rc, env1⟩
        rw [hcv] at h
        cases rc with
        | ok cv =>
          have h1 := ihE c hc env cv env1 hcv
          cases cv with
          | bool b =>
            cases b with
            | true => exact (ihE t ht env1 r env' h).trans h1
            | false => exact (ihE f hf env1 r env' h).trans h1
          | int x => simp only [Prod.mk.injEq] at h; exact h.2.symm.trans h1
          | string x => simp only [Prod.mk.injEq] at h; exact h.2.symm.trans h1
          | list x => simp only [Prod.mk.injEq] at h; exact h.2.symm.trans h1
          | set x => simp only [Prod.mk.injEq] at h; exact h.2.symm.trans h1
          | map x => simp only [Prod.mk.injEq] at h; exact h.2.symm.trans h1
          | builtin x => simp only [Prod.mk.injEq] at h; exact h.2.symm.trans h1
        | error e => simp at h
      | var name =>
        simp only [eval] at h
        cases hl : Env.lookup env name <;> rw [hl] at h <;>
          simp only [Prod.mk.injEq] at h <;> exact h.2.symm
      | field fname inner =>
        have hi : sizeOf inner ≤ n := by simp at he; omega
        simp only [eval] at h
        rcases hiv : eval env inner with ⟨ri, env1⟩
        rw [hiv] at h
        cases ri with
        | ok iv =>
          have hp := ihE inner hi env iv env1 hiv
          cases iv with
          | string s =>
            simp only [] at h
            by_cases hf : fname = "len"
            · rw [if_pos hf] at h
              simp only [Prod.mk.injEq] at h
              exact h.2.symm.trans hp
            · rw [if_neg hf] at h
              simp only [Prod.mk.injEq] at h
              exact h.2.symm.trans hp
          | map fields =>
            simp only [] at h
            by_cases hf1 : fname = "contains"
            · rw [if_pos hf1] at h
              simp only [Prod.mk.injEq] at h
              exact h.2.symm.trans hp
            · rw [if_neg hf1] at h
              by_cases hf2 : fname = "get"
              · rw [if_pos hf2] at h
                simp only [Prod.mk.injEq] at h
                exact h.2.symm.trans hp
              · rw [if_neg hf2] at h
                cases hl : lookupKey (.string fname) fields <;> rw [hl] at h <;>
                  simp only [Prod.mk.injEq] at h <;> exact h.2.symm.trans hp
          | list xs =>
            simp only [] at h
            by_cases hf : fname = "contains"
            · rw [if_pos hf] at h
              simp only [Prod.mk.injEq] at h
              exact h.2.symm.trans hp
            · rw [if_neg hf] at h
              simp only [Prod.mk.injEq] at h
              exact h.2.symm.trans hp
          | bool x => simp only [Prod.mk.injEq] at h; exact h.2.symm.trans hp
          | int x => simp only [Prod.mk.injEq] at h; exact h.2.symm.trans hp
          | set x => simp only [Prod.mk.injEq] at h; exact h.2.symm.trans hp
          | builtin x => simp only [Prod.mk.injEq] at h; exact h.2.symm.trans hp
        | error e => simp at h
      | letE ident value body =>
        have hv : sizeOf value ≤ n := by simp at he; omega
        have hb : sizeOf body ≤ n := by simp at he; omega
        simp only [eval] at h
        rcases hvv : eval env value with ⟨rv, env1⟩
        rw [hvv] at h
        cases rv with
        | ok vv =>
          simp only [] at h
          rcases hbv : eval (Env.push env1 ident vv) body with ⟨rb, env2⟩
          rw [hbv] at h
          cases rb with
          | ok rr =>
            simp only [Prod.mk.injEq] at h
            have h2 := ihE body hb (Env.push env1 ident vv) rr env2 hbv
            have h1 := ihE value hv env vv env1 hvv
            rw [← h.2, h2]
            exact h1
          | error e => simp at h
        | error e => simp at h
      | call f args =>
        have hf : sizeOf f ≤ n := by simp at he; omega
        have hargs : sizeOf args ≤ n := by simp at he; omega
        simp only [eval] at h
        rcases hfv : eval env f with ⟨rf, env1⟩
        rw [hfv] at h
        cases rf with
        | ok fv =>
          simp only [] at h
          rcases hav : evalArgs env1 args with ⟨ra, env2⟩
          rw [hav] at h
          cases ra with
          | ok vs =>
            have h2 := ihAs args hargs env1 vs env2 hav
            have h1 := ihE f hf env fv env1 hfv
            cases fv <;> simp only [Prod.mk.injEq] at h <;> (rw [← h.2, h2]; exact h1)
          | error e => simp at h
        | error e => simp at h
      | lam args body => simp [eval] at h
      | unOp op ve =>
        have hv : sizeOf ve ≤ n := by simp at he; omega
        simp only [eval] at h
        rcases hvv : eval env ve with ⟨rv, env1⟩
        rw [hvv] at h
        cases rv with
        | ok vv =>
          simp only [Prod.mk.injEq] at h
          rw [← h.2]
          exact ihE ve hv env vv env1 hvv
        | error e => simp at h
      | binOp op sp le re =>
        have hl : sizeOf le ≤ n := by simp at he; omega
        have hr : sizeOf re ≤ n := by simp at he; omega
        simp only [eval] at h
        rcases hlv : eval env le with ⟨rl, env1⟩
        rw [hlv] at h
        cases rl with
        | ok lv =>
          simp only [] at h
          rcases hrv : eval env1 re with ⟨rr, env2⟩
          rw [hrv] at h
          cases rr with
          | ok rv =>
            simp only [Prod.mk.injEq] at h
            rw [← h.2]
            exact (ihE re hr env1 rv env2 hrv).trans (ihE le hl env lv env1 hlv)
          | error e => simp at h
        | error e => simp at h
    · intro ss hs env out out' env' h
      cases ss with
      | nil =>
        simp only [evalSeqs, Prod.mk.injEq] at h
        exact h.2.symm
      | cons s rest =>
        have h1 : sizeOf s ≤ n := by simp at hs; omega
        have h2 : sizeOf rest ≤ n := by simp at hs; omega
        simp only [evalSeqs] at h
        rcases hsv : eval_seq env s out with ⟨rs, env1⟩
        rw [hsv] at h
        cases rs with
        | ok out1 =>
          exact (ihSs rest h2 env1 out1 out' env' h).trans (ihS s h1 env out out1 env1 hsv)
        | error e => simp at h
    · intro es hs env vs env' h
      cases es with
      | nil =>
        simp only [evalArgs, Prod.mk.injEq] at h
        exact h.2.symm
      | cons e rest =>
        have h1 : sizeOf e ≤ n := by simp at hs; omega
        have h2 : sizeOf rest ≤ n := by simp at hs; omega
        simp only [evalArgs] at h
        rcases hev : eval env e with ⟨re, env1⟩
        rw [hev] at h
        cases re with
        | ok v =>
          simp only [] at h
          rcases hrv : evalArgs env1 rest with ⟨rr, env2⟩
          rw [hrv] at h
          cases rr with
          | ok vs1 =>
            simp only [Prod.mk.injEq] at h
            rw [← h.2]
            exact (ihAs rest h2 env1 vs1 env2 hrv).trans (ihE e h1 env v env1 hev)
          | error er => simp at h
        | error er => simp at h
    · intro s hss env out out' env' h
      cases s with
      | elem span ve =>
        have hv : sizeOf ve ≤ n := by simp at hss; omega
        simp only [eval_seq] at h
        cases hc : SeqOut.values_check out span <;> rw [hc] at h
        · simp at h
        · simp only [] at h
          rcases hvv : eval env ve with ⟨rv, env1⟩
          rw [hvv] at h
          cases rv with
          | ok v =>
            simp only [Prod.mk.injEq] at h
            rw [← h.2]
            exact ihE ve hv env v env1 hvv
          | error e => simp at h
      | assoc span ke ve =>
        have hk : sizeOf ke ≤ n := by simp at hss; omega
        have hv : sizeOf ve ≤ n := by simp at hss; omega
        simp only [eval_seq] at h
        cases hc : SeqOut.keys_values_check out span <;> rw [hc] at h
        · simp at h
        · simp only [] at h
          rcases hkv : eval env ke with ⟨rk, env1⟩
          rw [hkv] at h
          cases rk with
          | ok k =>
            simp only [] at h
            rcases hvv : eval env1 ve with ⟨rv, env2⟩
            rw [hvv] at h
            cases rv with
            | ok v =>
              simp only [Prod.mk.injEq] at h
              rw [← h.2]
              exact (ihE ve hv env1 v env2 hvv).trans (ihE ke hk env k env1 hkv)
            | error e => simp at h
          | error e => simp at h
      | forS idents coll body =>
        have hc : sizeOf coll ≤ n := by simp at hss; omega
        have hb : sizeOf body ≤ n := by simp at hss; omega
        simp only [eval_seq] at h
        rcases hcv : eval env coll with ⟨rc, env1⟩
        rw [hcv] at h
        cases rc with
        | ok cv =>
          simp only [] at h
          have h1 := ihE coll hc env cv env1 hcv
          cases idents with
          | nil => cases cv <;> simp only [Prod.mk.injEq] at h <;> exact h.2.symm.trans h1
          | cons name rest =>
            cases rest with
            | nil =>
              cases cv with
              | list xs =>
                refine (iterValues_env_preserved _ ?_ xs out env1 out' env' h).trans h1
                intro x o e o' e' hx
                rcases hbv : eval_seq (Env.push e name x) body o with ⟨rb, eb⟩
                rw [hbv] at hx
                cases rb with
                | ok ob =>
                  simp only [Prod.mk.injEq] at hx
                  have heb := ihS body hb (Env.push e name x) o ob eb hbv
                  rw [← hx.2, heb]
                  rfl
                | error er => simp at hx
              | set xs =>
                refine (iterValues_env_preserved _ ?_ xs out env1 out' env' h).trans h1
                intro x o e o' e' hx
                rcases hbv : eval_seq (Env.push e name x) body o with ⟨rb, eb⟩
                rw [hbv] at hx
                cases rb with
                | ok ob =>
                  simp only [Prod.mk.injEq] at hx
                  have heb := ihS body hb (Env.push e name x) o ob eb hbv
                  rw [← hx.2, heb]
                  rfl
                | error er => simp at hx
              | bool x => simp only [Prod.mk.injEq] at h; exact h.2.symm.trans h1
              | int x => simp only [Prod.mk.injEq] at h; exact h.2.symm.trans h1
              | string x => simp only [Prod.mk.injEq] at h; exact h.2.symm.trans h1
              | map x => simp only [Prod.mk.injEq] at h; exact h.2.symm.trans h1
              | builtin x => simp only [Prod.mk.injEq] at h; exact h.2.symm.trans h1
            | cons v_name rest2 =>
              cases rest2 with
              | nil =>
                cases cv with
                | map xs =>
                  refine (iterEntries_env_preserved _ ?_ xs out env1 out' env' h).trans h1
                  intro k v o e o' e' hx
                  rcases hbv : eval_seq (Env.push (Env.push e name k) v_name v) body o
                    with ⟨rb, eb⟩
                  rw [hbv] at hx
                  cases rb with
                  | ok ob =>
                    simp only [Prod.mk.injEq] at hx
                    have heb := ihS body hb (Env.push (Env.push e name k) v_name v) o ob eb hbv
                    rw [← hx.2, heb]
                    rfl
                  | error er => simp at hx
                | bool x => simp only [Prod.mk.injEq] at h; exact h.2.symm.trans h1
                | int x => simp only [Prod.mk.injEq] at h; exact h.2.symm.trans h1
                | string x => simp only [Prod.mk.injEq] at h; exact h.2.symm.trans h1
                | list x => simp only [Prod.mk.injEq] at h; exact h.2.symm.trans h1
                | set x => simp only [Prod.mk.injEq] at h; exact h.2.symm.trans h1
                | builtin x => simp only [Prod.mk.injEq] at h; exact h.2.symm.trans h1
              | cons z rest3 =>
                cases cv <;> simp only [Prod.mk.injEq] at h <;> exact h.2.symm.trans h1
        | error e => simp at h
      | ifS cond body =>
        have hc : sizeOf cond ≤ n := by simp at hss; omega
        have hb : sizeOf body ≤ n := by simp at hss; omega
        simp only [eval_seq] at h
        rcases hcv : eval env cond with ⟨rc, env1⟩
        rw [hcv] at h
        cases rc with
        | ok cv =>
          have h1 := ihE cond hc env cv env1 hcv
          cases cv with
          | bool b =>
            cases b with
            | true => exact (ihS body hb env1 out out' env' h).trans h1
            | false =>
              simp only [Prod.mk.injEq] at h
              exact h.2.symm.trans h1
          | int x => simp only [Prod.mk.injEq] at h; exact h.2.symm.trans h1
          | string x => simp only [Prod.mk.injEq] at h; exact h.2.symm.trans h1
          | list x => simp only [Prod.mk.injEq] at h; exact h.2.symm.trans h1
          | set x => simp only [Prod.mk.injEq] at h; exact h.2.symm.trans h1
          | map x => simp only [Prod.mk.injEq] at h; exact h.2.symm.trans h1
          | builtin x => simp only [Prod.mk.injEq] at h; exact h.2.symm.trans h1
        | error e => simp at h
      | letS ident value body =>
        have hv : sizeOf value ≤ n := by simp at hss; omega
        have hb : sizeOf body ≤ n := by simp at hss; omega
        simp only [eval_seq] at h
        rcases hvv : eval env value with ⟨rv, env1⟩
        rw [hvv] at h
        cases rv with
        | ok vv =>
          simp only [] at h
          rcases hbv : eval_seq (Env.push env1 ident vv) body out with ⟨rb, env2⟩
          rw [hbv] at h
          cases rb with
          | ok ob =>
            simp only [Prod.mk.injEq] at h
            have h2 := ihS body hb (Env.push env1 ident vv) out ob env2 hbv
            have h1 := ihE value hv env vv env1 hvv
            rw [← h.2, h2]
            exact h1
          | error e => simp at h
        | error e => simp at h

/-- Success of the expression evaluator leaves the environment
unchanged. -/
theorem eval_ok_env (env : Env) (e : Expr) (r : Value) (env' : Env)
    (h : eval env e = (.ok r, env')) : env' = env :=
  (env_preservation (sizeOf e)).1 e le_rfl env r env' h

/-! ## Claim theorems -/

/-- C4: Add and Multiply on two Int values perform checked signed 64-bit
arithmetic: the exact mathematical sum/product is returned when it is
representable, and otherwise evaluation fails with an operator-specific
overflow error carrying the operator's source location; in particular
the maximum representable Int plus 1 fails, and the same value times 2
fails. -/
theorem C4_checked_int_arithmetic (sp : Span) (x y : Int) :
    (i64Min ≤ x + y → x + y ≤ i64Max →
      eval_binop .add sp (.int x) (.int y) = .ok (.int (x + y))) ∧
    (¬(i64Min ≤ x + y ∧ x + y ≤ i64Max) →
      eval_binop .add sp (.int x) (.int y)
        = .error (.atSpan sp "Addition would overflow.")) ∧
    (i64Min ≤ x * y → x * y ≤ i64Max →
      eval_binop .mul sp (.int x) (.int y) = .ok (.int (x * y))) ∧
    (¬(i64Min ≤ x * y ∧ x * y ≤ i64Max) →
      eval_binop .mul sp (.int x) (.int y)
        = .error (.atSpan sp "Multiplication would overflow.")) ∧
    eval_binop .add sp (.int i64Max) (.int 1)
      = .error (.atSpan sp "Addition would overflow.") ∧
    eval_binop .mul sp (.int i64Max) (.int 2)
      = .error (.atSpan sp "Multiplication would overflow.") := by
  refine ⟨?_, ?_, ?_, ?_, ?_, ?_⟩
  · intro h1 h2
    simp [eval_binop, checkedAdd, h1, h2]
  · intro h
    simp only [eval_binop, checkedAdd]
    rw [if_neg h]
  · intro h1 h2
    simp [eval_binop, checkedMul, h1, h2]
  · intro h
    simp only [eval_binop, checkedMul]
    rw [if_neg h]
  · have hno : ¬(i64Min ≤ i64Max + 1 ∧ i64Max + 1 ≤ i64Max) := by decide
    simp only [eval_binop, checkedAdd]
    rw [if_neg hno]
  · have hno : ¬(i64Min ≤ i64Max * 2 ∧ i64Max * 2 ≤ i64Max) := by decide
    simp only [eval_binop, checkedMul]
    rw [if_neg hno]

/-- Witness for C4 at concrete inputs: `2 + 3` is representable and
evaluates to `5`; `2 * 3` evaluates to `6`. -/
theorem C4_checked_int_arithmetic_witness :
    eval_binop .add ⟨0⟩ (.int 2) (.int 3) = .ok (.int (2 + 3)) ∧
    eval_binop .mul ⟨0⟩ (.int 2) (.int 3) = .ok (.int (2 * 3)) :=
  ⟨(C4_checked_int_arithmetic ⟨0⟩ 2 3).1 (by decide) (by decide),
   (C4_checked_int_arithmetic ⟨0⟩ 2 3).2.2.1 (by decide) (by decide)⟩

/-- C5: a conditional evaluates only the branch selected by the Bool
condition, so an error in the untaken branch never surfaces (the result
does not depend on the untaken branch at all), and a non-Bool condition
fails; by contrast And/Or evaluate both operands before the operator
runs, so an error in the right operand surfaces even when the left
operand alone would determine the result. -/
theorem C5_conditional_lazy_binop_strict :
    (∀ env c t e env₁, eval env c = (.ok (.bool true), env₁) →
      eval env (.ifThenElse c t e) = eval env₁ t) ∧
    (∀ env c t e env₁, eval env c = (.ok (.bool false), env₁) →
      eval env (.ifThenElse c t e) = eval env₁ e) ∧
    (∀ env c t e v env₁, eval env c = (.ok v, env₁) → (∀ b, v ≠ .bool b) →
      eval env (.ifThenElse c t e)
        = (.error (.msg "Condition should be boolean."), env₁)) ∧
    (∀ env sp l r x env₁ er env₂, eval env l = (.ok (.bool x), env₁) →
      eval env₁ r = (.error er, env₂) →
      eval env (.binOp .and sp l r) = (.error er, env₂)) ∧
    (∀ env sp l r x env₁ er env₂, eval env l = (.ok (.bool x), env₁) →
      eval env₁ r = (.error er, env₂) →
      eval env (.binOp .or sp l r) = (.error er, env₂)) ∧
    eval [] (.ifThenElse (.boolLit false) (.var "boom") (.integerLit 1))
      = (.ok (.int 1), ([] : Env)) ∧
    eval [] (.binOp .or ⟨0⟩ (.boolLit true) (.var "boom"))
      = (.error (.msg "Variable not found."), ([] : Env)) := by
  refine ⟨?_, ?_, ?_, ?_, ?_, rfl, rfl⟩
  · intro env c t e env₁ h
    simp only [eval]
    rw [h]
  · intro env c t e env₁ h
    simp only [eval]
    rw [h]
  · intro env c t e v env₁ h hv
    simp only [eval]
    rw [h]
    cases v with
    | bool b => exact absurd rfl (hv b)
    | int x => rfl
    | string x => rfl
    | list x => rfl
    | set x => rfl
    | map x => rfl
    | builtin x => rfl
  · intro env sp l r x env₁ er env₂ hl hr
    simp only [eval]
    rw [hl]
    simp only []
    rw [hr]
  · intro env sp l r x env₁ er env₂ hl hr
    simp only [eval]
    rw [hl]
    simp only []
    rw [hr]

/-- Witness for C5 at concrete inputs: a false condition selects the
else branch even though the then branch would error; Or with a true
left operand still propagates the right operand's error. -/
theorem C5_conditional_lazy_binop_strict_witness :
    eval [] (.ifThenElse (.boolLit false) (.var "boom") (.integerLit 7))
      = eval [] (.integerLit 7) ∧
    eval [] (.binOp .and ⟨0⟩ (.boolLit false) (.var "boom"))
      = (.error (.msg "Variable not found."), ([] : Env)) :=
  ⟨(C5_conditional_lazy_binop_strict).2.1 [] (.boolLit false) (.var "boom")
      (.integerLit 7) [] rfl,
   (C5_conditional_lazy_binop_strict).2.2.2.1 [] ⟨0⟩ (.boolLit false) (.var "boom")
      false [] (.msg "Variable not found.") [] rfl rfl⟩

/-- C10: in a call expression all arguments are evaluated left-to-right
after the callee but before the callee's type is inspected, so an error
raised by an argument surfaces instead of the "not callable" error,
which is produced only when the callee and every argument evaluated
successfully. -/
theorem C10_call_args_before_callable_check :
    (∀ env f args v env₁ er env₂, eval env f = (.ok v, env₁) →
      evalArgs env₁ args = (.error er, env₂) →
      eval env (.call f args) = (.error er, env₂)) ∧
    (∀ env f args v env₁ vs env₂, eval env f = (.ok v, env₁) →
      (∀ b, v ≠ .builtin b) →
      evalArgs env₁ args = (.ok vs, env₂) →
      eval env (.call f args)
        = (.error (.msg "Can only call functions."), env₂)) ∧
    (∀ env a rest er env₁, eval env a = (.error er, env₁) →
      evalArgs env (a :: rest) = (.error er, env₁)) ∧
    eval [] (.call (.integerLit 1) [.var "boom"])
      = (.error (.msg "Variable not found."), ([] : Env)) ∧
    eval [] (.call (.integerLit 1) [.integerLit 2])
      = (.error (.msg "Can only call functions."), ([] : Env)) := by
  refine ⟨?_, ?_, ?_, rfl, rfl⟩
  · intro env f args v env₁ er env₂ hf ha
    simp only [eval]
    rw [hf]
    simp only []
    rw [ha]
  · intro env f args v env₁ vs env₂ hf hv ha
    simp only [eval]
    rw [hf]
    simp only []
    rw [ha]
  · intro env a rest er env₁ ha
    simp only [evalArgs]
    rw [ha]

/-- Witness for C10 at concrete inputs: calling the non-callable `1`
with an erroring argument reports the argument's error; with a
well-evaluating argument it reports not-callable. -/
theorem C10_call_args_before_callable_check_witness :
    eval [] (.call (.integerLit 1) [.var "boom"])
      = (.error (.msg "Variable not found."), ([] : Env)) ∧
    eval [] (.call (.integerLit 1) [.integerLit 2])
      = (.error (.msg "Can only call functions."), ([] : Env)) :=
  ⟨(C10_call_args_before_callable_check).1 [] (.integerLit 1) [.var "boom"]
      (.int 1) [] (.msg "Variable not found.") [] rfl rfl,
   (C10_call_args_before_callable_check).2.1 [] (.integerLit 1) [.integerLit 2]
      (.int 1) [] [.int 2] [] rfl (fun _ h => Value.noConfusion h) rfl⟩

/-- C2: Union on two Maps is a right-biased merge: the result is a Map,
a key found in the right map keeps the right map's value, a key only in
the left map keeps the left value, the key set is the union of both key
sets; consequently `m union empty == m`, `empty union m == m`, and
`(a: 1) union (a: 2) == (a: 2)`. The right map and the map
in the identity laws carry the `BTreeMap` sortedness invariant. -/
theorem C2_map_union_right_biased (op_span : Span) (m1 m2 m : List (Value × Value))
    (h2 : SortedKeys m2) (hm : SortedKeys m) :
    eval_binop .union op_span (.map m1) (.map m2) = .ok (.map (mapUnion m1 m2)) ∧
    (∀ k v2, lookupKey k m2 = some v2 → lookupKey k (mapUnion m1 m2) = some v2) ∧
    (∀ k, lookupKey k m2 = none → lookupKey k (mapUnion m1 m2) = lookupKey k m1) ∧
    (∀ k, (lookupKey k (mapUnion m1 m2)).isSome ↔
      (lookupKey k m1).isSome ∨ (lookupKey k m2).isSome) ∧
    mapUnion m [] = m ∧
    mapUnion [] m = m ∧
    eval_binop .union op_span (.map [(.string "a", .int 1)]) (.map [(.string "a", .int 2)])
      = .ok (.map [(.string "a", .int 2)]) := by
  refine ⟨rfl, ?_, ?_, ?_, mapUnion_nil_right m, mapUnion_nil_left m hm, rfl⟩
  · intro k v2 hk
    rw [lookupKey_mapUnion k m2 m1 h2, hk]
  · intro k hk
    rw [lookupKey_mapUnion k m2 m1 h2, hk]
  · intro k
    rw [lookupKey_mapUnion k m2 m1 h2]
    cases lookupKey k m2 <;> cases hl : lookupKey k m1 <;> simp

/-- Witness for C2 at the concrete sorted maps (a: 1) and (b: 2):
the merged map holds both entries. -/
theorem C2_map_union_right_biased_witness :
    eval_binop .union ⟨0⟩ (.map [(.string "a", .int 1)]) (.map [(.string "b", .int 2)])
      = .ok (.map (mapUnion [(.string "a", .int 1)] [(.string "b", .int 2)])) ∧
    mapUnion [] [(.string "b", .int 2)] = [(.string "b", .int 2)] :=
  ⟨(C2_map_union_right_biased ⟨0⟩ [(.string "a", .int 1)] [(.string "b", .int 2)]
      [(.string "b", .int 2)] (by decide) (by decide)).1,
   (C2_map_union_right_biased ⟨0⟩ [(.string "a", .int 1)] [(.string "b", .int 2)]
      [(.string "b", .int 2)] (by decide) (by decide)).2.2.2.2.2.1⟩

/-- C3: Union of a Set and a List coerces the list's elements into the
set: the result is the Set holding exactly the members of the set
together with the elements of the list, duplicates merged by value
equality, so the set (1, 2) union [2, 3, 3] is the set (1, 2, 3); Union on
(List, Set) or (List, List) operands fails with the unsupported-operator
error. -/
theorem C3_set_list_union_asymmetric (op_span : Span) (s l : List Value) :
    eval_binop .union op_span (.set s) (.list l) = .ok (.set (setInsertAll s l)) ∧
    (∀ v, v ∈ setInsertAll s l ↔ v ∈ s ∨ v ∈ l) ∧
    eval_binop .union op_span (.list l) (.set s)
      = .error (.msg "The binary operator is not supported for this value.") ∧
    (∀ l2 : List Value, eval_binop .union op_span (.list l) (.list l2)
      = .error (.msg "The binary operator is not supported for this value.")) ∧
    eval [] (.binOp .union ⟨0⟩
        (.braceLit [.elem ⟨1⟩ (.integerLit 1), .elem ⟨2⟩ (.integerLit 2)])
        (.bracketLit [.elem ⟨3⟩ (.integerLit 2), .elem ⟨4⟩ (.integerLit 3),
          .elem ⟨5⟩ (.integerLit 3)]))
      = (.ok (.set [.int 1, .int 2, .int 3]), ([] : Env)) := by
  refine ⟨rfl, ?_, rfl, fun l2 => rfl, rfl⟩
  intro v
  exact mem_setInsertAll v l s

/-- C6: a brace literal's result is decided by the accumulator's final
state: an undetermined accumulator yields the empty Set (not an empty
Map); a Set-committed accumulator yields a Set in which later duplicates
silently merge; a Record-committed accumulator yields a Map built by
inserting keys in evaluation order, so a repeated key's later value
overwrites the earlier one; the List state signals an internal invariant
violation. -/
theorem C6_brace_literal_finalisation :
    (∀ env seqs env', evalSeqs env seqs .setOrRecord = (.ok .setOrRecord, env') →
      eval env (.braceLit seqs) = (.ok (.set []), env')) ∧
    (∀ env seqs sp vs env', evalSeqs env seqs .setOrRecord = (.ok (.set sp vs), env') →
      eval env (.braceLit seqs) = (.ok (.set (setFromList vs)), env')) ∧
    (∀ env seqs sp ks vs env',
      evalSeqs env seqs .setOrRecord = (.ok (.record sp ks vs), env') →
      eval env (.braceLit seqs) = (.ok (.map (mapFromEntries ks vs)), env')) ∧
    (∀ env seqs vs env', evalSeqs env seqs .setOrRecord = (.ok (.list vs), env') →
      eval env (.braceLit seqs) = (.error (.fatal "Did not start out as list."), env')) ∧
    (∀ v vs, v ∈ setFromList vs ↔ v ∈ vs) ∧
    eval [] (.braceLit []) = (.ok (.set []), ([] : Env)) ∧
    Value.set [] ≠ Value.map [] ∧
    eval [] (.braceLit [.elem ⟨0⟩ (.integerLit 1), .elem ⟨1⟩ (.integerLit 1)])
      = (.ok (.set [.int 1]), ([] : Env)) ∧
    eval [] (.braceLit [.assoc ⟨0⟩ (.stringLit "a") (.integerLit 1),
        .assoc ⟨1⟩ (.stringLit "a") (.integerLit 2)])
      = (.ok (.map [(.string "a", .int 2)]), ([] : Env)) := by
  refine ⟨?_, ?_, ?_, ?_, mem_setFromList, rfl, by decide, rfl, rfl⟩
  · intro env seqs env' h
    simp only [eval]
    rw [h]
  · intro env seqs sp vs env' h
    simp only [eval]
    rw [h]
  · intro env seqs sp ks vs env' h
    simp only [eval]
    rw [h]
  · intro env seqs vs env' h
    simp only [eval]
    rw [h]

/-- Witness for C6: the brace literal whose single clause is the scalar
`1` finalises a Set-committed accumulator into the set containing `1`. -/
theorem C6_brace_literal_finalisation_witness :
    eval [] (.braceLit [.elem ⟨0⟩ (.integerLit 1)])
      = (.ok (.set (setFromList [.int 1])), ([] : Env)) :=
  (C6_brace_literal_finalisation).2.1 [] [.elem ⟨0⟩ (.integerLit 1)] ⟨0⟩
    [.int 1] [] rfl

/-- C7: a sequence literal that mixes scalar elements and key-value
pairs fails with an error carrying both the offending clause's span and
the span of the element that first committed the literal's shape; a
bracket literal containing a key-value pair instead fails with the
dedicated hint to use braces for records. -/
theorem C7_shape_conflict_diagnostics :
    (∀ env s1 e1 s2 ke ve rest v1 env1, eval env e1 = (.ok v1, env1) →
      eval env (.braceLit (.elem s1 e1 :: .assoc s2 ke ve :: rest))
        = (.error (.withNote s2 "Expected scalar element, not key-value."
            s1 "The collection is a set and not a record, because of this scalar value."),
          env1)) ∧
    (∀ env s1 ke ve s2 e2 rest k v env1 env2,
      eval env ke = (.ok k, env1) → eval env1 ve = (.ok v, env2) →
      eval env (.braceLit (.assoc s1 ke ve :: .elem s2 e2 :: rest))
        = (.error (.withNote s2 "Expected key-value, not a scalar element."
            s1 "The collection is a record and not a set, because of this key-value."),
          env2)) ∧
    (∀ env sp ke ve rest,
      eval env (.bracketLit (.assoc sp ke ve :: rest))
        = (.error (.withHelp sp "Expected scalar element, not key-value."
            "Key-value pairs are allowed in records, which are enclosed in '{}', not '[]'."),
          env)) := by
  refine ⟨?_, ?_, ?_⟩
  · intro env s1 e1 s2 ke ve rest v1 env1 h1
    simp only [eval, evalSeqs, eval_seq, SeqOut.values_check]
    rw [h1]
    simp only [SeqOut.push_value, evalSeqs, eval_seq, SeqOut.keys_values_check]
  · intro env s1 ke ve s2 e2 rest k v env1 env2 hk hv
    simp only [eval, evalSeqs, eval_seq, SeqOut.keys_values_check]
    rw [hk]
    simp only []
    rw [hv]
    simp only [SeqOut.push_key_value, evalSeqs, eval_seq, SeqOut.values_check]
  · intro env sp ke ve rest
    simp only [eval, evalSeqs, eval_seq, SeqOut.keys_values_check]

/-- Witness for C7: the brace literal whose scalar `1` is followed by
the pair `"a": 2` reports the conflict with both spans. -/
theorem C7_shape_conflict_diagnostics_witness :
    eval [] (.braceLit [.elem ⟨4⟩ (.integerLit 1),
        .assoc ⟨9⟩ (.stringLit "a") (.integerLit 2)])
      = (.error (.withNote ⟨9⟩ "Expected scalar element, not key-value."
          ⟨4⟩ "The collection is a set and not a record, because of this scalar value."),
        ([] : Env)) :=
  (C7_shape_conflict_diagnostics).1 [] ⟨4⟩ (.integerLit 1) ⟨9⟩ (.stringLit "a")
    (.integerLit 2) [] (.int 1) [] rfl

/-- A `for` body step that appends exactly its element to a list
accumulator makes the iteration append the whole collection in stored
order. -/
theorem iterValues_elem_append (step : Value → SeqOut → Env → (Except Error SeqOut) × Env)
    (hstep : ∀ x acc env, step x (.list acc) env = (.ok (.list (acc ++ [x])), env)) :
    ∀ xs acc env, iterValues step xs (.list acc) env = (.ok (.list (acc ++ xs)), env) := by
  intro xs
  induction xs with
  | nil => intro acc env; simp [iterValues]
  | cons x xs ih =>
    intro acc env
    simp only [iterValues]
    rw [hstep]
    simp only []
    rw [ih (acc ++ [x]) env]
    simp

/-- A two-binder `for` body step that appends the pair `[k, v]` to a
list accumulator makes the iteration append every entry in stored (key)
order. -/
theorem iterEntries_pair_append
    (step : Value → Value → SeqOut → Env → (Except Error SeqOut) × Env)
    (hstep : ∀ k v acc env,
      step k v (.list acc) env = (.ok (.list (acc ++ [Value.list [k, v]])), env)) :
    ∀ es acc env, iterEntries step es (.list acc) env
      = (.ok (.list (acc ++ es.map (fun p => Value.list [p.1, p.2]))), env) := by
  intro es
  induction es with
  | nil => intro acc env; simp [iterEntries]
  | cons p es ih =>
    intro acc env
    obtain ⟨k, v⟩ := p
    simp only [iterEntries]
    rw [hstep]
    simp only []
    rw [ih (acc ++ [Value.list [k, v]]) env]
    simp

/-- C8: a `for` clause evaluates its collection once and dispatches on
binder arity and collection shape: one binder iterates a List or Set in
stored order (the body runs once per element, witnessed by the appended
output), two binders iterate a Map's entries as (key, value) pairs in
key order (iterating the map built from `b: 2, a: 1` visits `("a", 1)`
then `("b", 2)`), and any other combination fails as unsupported
iteration. -/
theorem C8_for_clause_iteration (sp sp1 sp2 : Span) (k_name v_name : String)
    (hne : k_name ≠ v_name) :
    (∀ env name coll xs acc env₁, eval env coll = (.ok (.list xs), env₁) →
      eval_seq env (.forS [name] coll (.elem sp (.var name))) (.list acc)
        = (.ok (.list (acc ++ xs)), env₁)) ∧
    (∀ env name coll xs acc env₁, eval env coll = (.ok (.set xs), env₁) →
      eval_seq env (.forS [name] coll (.elem sp (.var name))) (.list acc)
        = (.ok (.list (acc ++ xs)), env₁)) ∧
    (∀ env coll es acc env₁, eval env coll = (.ok (.map es), env₁) →
      eval_seq env (.forS [k_name, v_name] coll
          (.elem sp (.bracketLit [.elem sp1 (.var k_name), .elem sp2 (.var v_name)])))
        (.list acc)
        = (.ok (.list (acc ++ es.map (fun p => Value.list [p.1, p.2]))), env₁)) ∧
    (∀ env name coll body out es env₁, eval env coll = (.ok (.map es), env₁) →
      eval_seq env (.forS [name] coll body) out
        = (.error (.msg "Iteration is not supported like this."), env₁)) ∧
    (∀ env n1 n2 coll body out xs env₁, eval env coll = (.ok (.list xs), env₁) →
      eval_seq env (.forS [n1, n2] coll body) out
        = (.error (.msg "Iteration is not supported like this."), env₁)) ∧
    eval [] (.bracketLit [.forS ["k", "v"]
        (.braceLit [.assoc ⟨0⟩ (.stringLit "b") (.integerLit 2),
            .assoc ⟨1⟩ (.stringLit "a") (.integerLit 1)])
        (.elem ⟨2⟩ (.bracketLit [.elem ⟨3⟩ (.var "k"), .elem ⟨4⟩ (.var "v")]))])
      = (.ok (.list [.list [.string "a", .int 1], .list [.string "b", .int 2]]),
        ([] : Env)) := by
  refine ⟨?_, ?_, ?_, ?_, ?_, rfl⟩
  · intro env name coll xs acc env₁ hc
    simp only [eval_seq]
    rw [hc]
    simp only []
    refine iterValues_elem_append _ ?_ xs acc env₁
    intro x acc' env'
    simp [eval_seq, SeqOut.values_check, eval, Env.push, Env.lookup,
      SeqOut.push_value, Env.pop]
  · intro env name coll xs acc env₁ hc
    simp only [eval_seq]
    rw [hc]
    simp only []
    refine iterValues_elem_append _ ?_ xs acc env₁
    intro x acc' env'
    simp [eval_seq, SeqOut.values_check, eval, Env.push, Env.lookup,
      SeqOut.push_value, Env.pop]
  · intro env coll es acc env₁ hc
    simp only [eval_seq]
    rw [hc]
    simp only []
    refine iterEntries_pair_append _ ?_ es acc env₁
    intro k v acc' env'
    have hne' : v_name ≠ k_name := Ne.symm hne
    simp [eval_seq, SeqOut.values_check, eval, evalSeqs, Env.push, Env.lookup,
      SeqOut.push_value, Env.pop, hne']
  · intro env name coll body out es env₁ hc
    simp only [eval_seq]
    rw [hc]
  · intro env n1 n2 coll body out xs env₁ hc
    simp only [eval_seq]
    rw [hc]

/-- Witness for C8: one-binder iteration over the list `[10, 20]`
appends both elements in order. -/
theorem C8_for_clause_iteration_witness :
    eval_seq [] (.forS ["x"]
        (.bracketLit [.elem ⟨1⟩ (.integerLit 10), .elem ⟨2⟩ (.integerLit 20)])
        (.elem ⟨0⟩ (.var "x"))) (.list [])
      = (.ok (.list ([] ++ [Value.int 10, Value.int 20])), ([] : Env)) :=
  (C8_for_clause_iteration ⟨0⟩ ⟨3⟩ ⟨4⟩ "k" "v" (by decide)).1 []
    "x" (.bracketLit [.elem ⟨1⟩ (.integerLit 10), .elem ⟨2⟩ (.integerLit 20)])
    [.int 10, .int 20] [] [] rfl

/-- C9: on a Map base value, field access on `contains` and `get`
resolves to the builtins, shadowing same-named record keys: `contains`
is a one-argument key-membership test and `get` a two-argument lookup
with default; any other field name is looked up as a record key and
fails as "no such field" when absent; calling either builtin with the
wrong number of arguments fails with an arity error naming the
builtin. -/
theorem C9_map_field_resolution (fname : String) :
    (∀ env inner fields env', eval env inner = (.ok (.map fields), env') →
      eval env (.field "contains" inner)
        = (.ok (.builtin (.map_contains (.map fields))), env')) ∧
    (∀ env inner fields env', eval env inner = (.ok (.map fields), env') →
      eval env (.field "get" inner)
        = (.ok (.builtin (.map_get (.map fields))), env')) ∧
    (∀ env inner fields env' v, fname ≠ "contains" → fname ≠ "get" →
      eval env inner = (.ok (.map fields), env') →
      lookupKey (.string fname) fields = some v →
      eval env (.field fname inner) = (.ok v, env')) ∧
    (∀ env inner fields env', fname ≠ "contains" → fname ≠ "get" →
      eval env inner = (.ok (.map fields), env') →
      lookupKey (.string fname) fields = none →
      eval env (.field fname inner)
        = (.error (.msg "No such field in this value."), env')) ∧
    (∀ fields k, applyBuiltin (.map_contains (.map fields)) [k]
      = .ok (.bool (lookupKey k fields).isSome)) ∧
    (∀ fields k d, applyBuiltin (.map_get (.map fields)) [k, d]
      = .ok ((lookupKey k fields).getD d)) ∧
    Builtin.name (.map_contains (.map [])) = "Map.contains" ∧
    Builtin.name (.map_get (.map [])) = "Map.get" ∧
    (∀ m, applyBuiltin (.map_contains m) []
      = .error (.msg "Map.contains takes a single argument.")) ∧
    (∀ m a b rest, applyBuiltin (.map_contains m) (a :: b :: rest)
      = .error (.msg "Map.contains takes a single argument.")) ∧
    (∀ m, applyBuiltin (.map_get m) []
      = .error (.msg "Map.get takes two arguments.")) ∧
    (∀ m a, applyBuiltin (.map_get m) [a]
      = .error (.msg "Map.get takes two arguments.")) ∧
    (∀ m a b c rest, applyBuiltin (.map_get m) (a :: b :: c :: rest)
      = .error (.msg "Map.get takes two arguments.")) ∧
    eval [] (.call (.field "contains"
        (.braceLit [.assoc ⟨0⟩ (.stringLit "a") (.integerLit 1)])) [.stringLit "a"])
      = (.ok (.bool true), ([] : Env)) ∧
    eval [] (.call (.field "get"
        (.braceLit [.assoc ⟨0⟩ (.stringLit "a") (.integerLit 1)]))
        [.stringLit "a", .integerLit 0])
      = (.ok (.int 1), ([] : Env)) ∧
    eval [] (.call (.field "get"
        (.braceLit [.assoc ⟨0⟩ (.stringLit "a") (.integerLit 1)]))
        [.stringLit "b", .integerLit 0])
      = (.ok (.int 0), ([] : Env)) ∧
    eval [] (.field "contains"
        (.braceLit [.assoc ⟨0⟩ (.stringLit "contains") (.integerLit 5)]))
      = (.ok (.builtin (.map_contains (.map [(.string "contains", .int 5)]))),
        ([] : Env)) := by
  refine ⟨?_, ?_, ?_, ?_, ?_, ?_, rfl, rfl, ?_, ?_, ?_, ?_, ?_, rfl, rfl, rfl, rfl⟩
  · intro env inner fields env' h
    simp only [eval]
    rw [h]
    simp
  · intro env inner fields env' h
    simp only [eval]
    rw [h]
    simp
  · intro env inner fields env' v h1 h2 h3 h4
    simp only [eval]
    rw [h3]
    simp only []
    rw [if_neg h1, if_neg h2, h4]
  · intro env inner fields env' h1 h2 h3 h4
    simp only [eval]
    rw [h3]
    simp only []
    rw [if_neg h1, if_neg h2, h4]
  · intro fields k
    rfl
  · intro fields k d
    cases h : lookupKey k fields <;> simp [applyBuiltin, h]
  · intro m
    rfl
  · intro m a b rest
    rfl
  · intro m
    rfl
  · intro m a
    rfl
  · intro m a b c rest
    rfl

/-- Witness for C9: on the concrete map with the single key "a", the
field name "b" is neither builtin and is looked up as a record key,
failing as no-such-field. -/
theorem C9_map_field_resolution_witness :
    eval [] (.field "b" (.braceLit [.assoc ⟨0⟩ (.stringLit "a") (.integerLit 1)]))
      = (.error (.msg "No such field in this value."), ([] : Env)) :=
  (C9_map_field_resolution "b").2.2.2.1 []
    (.braceLit [.assoc ⟨0⟩ (.stringLit "a") (.integerLit 1)])
    [(.string "a", .int 1)] [] (by decide) (by decide) rfl rfl

/-- C1 counterexample: evaluating `let x = 1 in boom`, where the body
fails with an undefined-variable error, returns with the binding
`("x", 1)` still on the environment — the environment is not restored to
its pre-binding (empty) state on the error exit path, contrary to the
claim that the binding is popped even when evaluating the body fails. -/
theorem C1_counterexample :
    eval [] (.letE "x" (.integerLit 1) (.var "boom"))
      = (.error (.msg "Variable not found."), [("x", Value.int 1)]) ∧
    ([("x", Value.int 1)] : Env) ≠ ([] : Env) :=
  ⟨rfl, by simp⟩

/-- C1 as amended: on a let expression whose body evaluates
successfully, the binding is popped and the whole evaluation returns the
exact pre-let environment (the binding is not observable outside the
body); but when the body fails, the error propagates immediately and the
pop is skipped, so the environment is returned exactly as the failing
body evaluation left it — with the binding still present. The same holds
for the comprehension-local let clause. -/
theorem C1_let_binding_scope :
    (∀ env ident value body r env',
      eval env (.letE ident value body) = (.ok r, env') → env' = env) ∧
    (∀ env ident value body v env₁ er env₂,
      eval env value = (.ok v, env₁) →
      eval (Env.push env₁ ident v) body = (.error er, env₂) →
      eval env (.letE ident value body) = (.error er, env₂)) ∧
    (∀ env out ident value body out' env',
      eval_seq env (.letS ident value body) out = (.ok out', env') → env' = env) ∧
    (∀ env out ident value body v env₁ er env₂,
      eval env value = (.ok v, env₁) →
      eval_seq (Env.push env₁ ident v) body out = (.error er, env₂) →
      eval_seq env (.letS ident value body) out = (.error er, env₂)) := by
  refine ⟨?_, ?_, ?_, ?_⟩
  · intro env ident value body r env' h
    exact eval_ok_env env (.letE ident value body) r env' h
  · intro env ident value body v env₁ er env₂ hv hb
    simp only [eval]
    rw [hv]
    simp only []
    rw [hb]
  · intro env out ident value body out' env' h
    exact (env_preservation (sizeOf (Seq.letS ident value body))).2.2.2
      (.letS ident value body) le_rfl env out out' env' h
  · intro env out ident value body v env₁ er env₂ hv hb
    simp only [eval_seq]
    rw [hv]
    simp only []
    rw [hb]

/-- Witness for C1's amended statement: the successful
`let x = 1 in (let x = 2 in x)` returns `2` with the empty environment
fully restored, and the failing body of `let x = 1 in boom` leaves the
binding in place. -/
theorem C1_let_binding_scope_witness :
    ([] : Env) = ([] : Env) ∧
    eval [] (.letE "x" (.integerLit 1) (.var "boom"))
      = (.error (.msg "Variable not found."), [("x", Value.int 1)]) :=
  ⟨(C1_let_binding_scope).1 [] "x" (.integerLit 1)
      (.letE "x" (.integerLit 2) (.var "x")) (.int 2) [] rfl,
   (C1_let_binding_scope).2.1 [] "x" (.integerLit 1) (.var "boom") (.int 1) []
      (.msg "Variable not found.") [("x", Value.int 1)] rfl rfl⟩

end RCL
